import Mathlib

/-!
Verification development for the geoscore_de feature pipeline
(`src/geoscore_de/data_flow/features`, `src/geoscore_de/data_flow/feature_engineering`,
`src/geoscore_de/modelling/data_filtering.py`).

Pandas dataframes are modelled as tables: an ordered list of column names
together with rows that are positional lists of cells.  A cell is either a
concrete value (rational number or string) or `null` (pandas `NaN`/`None`).
Python exceptions are modelled with `Except PyError`.
-/

/-- Python exceptions that the modelled code can raise. -/
inductive PyError
  /-- `ValueError("Input dataframe failed validation checks.")` raised by
  `BaseFeatureEngineering.apply`. -/
  | validationError
  /-- `AttributeError`: attribute access on an object that does not carry the
  attribute (e.g. a pydantic model field that was never declared, or an
  instance attribute that `__init__` never assigned). -/
  | attributeError
  /-- `KeyError` on a dataframe column access: the named column is absent. -/
  | keyError (col : String)
  /-- `KeyError` raised by `FeatureMatrixBuilder.build_matrix` when the join
  key is missing from a feature's dataframe. -/
  | missingJoinKey (feature : String) (key : String)
  /-- `TypeError`: a class was called with an unexpected keyword argument. -/
  | typeError
  /-- `ValueError("No features loaded. Call load_features() first.")`. -/
  | noFeatures
  /-- `ImportError` / `AttributeError` during dynamic module or class lookup. -/
  | resolutionError
deriving DecidableEq, Repr

/-- A dataframe cell: a number, a string, or a missing value (pandas `NaN`). -/
inductive Value
  | num (q : Rat)
  | str (s : String)
  | null
deriving DecidableEq, Repr

/-- Whether a cell holds an actual (non-missing) value. -/
def Value.isNotNull : Value → Bool
  | .null => false
  | _ => true

/-- A pandas DataFrame: ordered column labels and positional rows. -/
structure Table where
  cols : List String
  rows : List (List Value)
deriving DecidableEq, Repr

/-- Every row has exactly one cell per column. -/
def Table.WF (t : Table) : Prop :=
  ∀ r ∈ t.rows, r.length = t.cols.length

instance (t : Table) : Decidable t.WF := by
  unfold Table.WF; infer_instance

/-- Cell of `row` under column `c`, given the column layout `cols`
(first occurrence of the label wins, as in pandas with unique labels). -/
def lookupCol (cols : List String) (row : List Value) (c : String) : Option Value :=
  (cols.findIdx? (· = c)).bind fun i => row.get? i

/-- The non-key columns of a column list (`pd.merge` keeps a single copy of the
`on=` column, contributed by the left operand). -/
def nonKeyCols (key : String) (cols : List String) : List String :=
  cols.filter (· ≠ key)

/-- The cells of `row` that do not belong to the key column. -/
def dropKeyVals (key : String) (cols : List String) (row : List Value) : List Value :=
  ((cols.zip row).filter (fun p => p.1 ≠ key)).map (·.2)

/-- Key equality as used by `pd.merge`: two key cells join when both are
present and equal.  `pd.merge` factorises the key columns of both sides
together and gives NA the same label on each side, so a null key does join a
null key.  (`none` — the key column itself missing — joins nothing; the
builder checks the column's presence before merging.) -/
def keysMatch : Option Value → Option Value → Bool
  | some a, some b => a = b
  | _, _ => false

/-- `left.merge(right, on=key, how="left")`: every left row is kept; matching
right rows contribute their non-key cells, unmatched left rows are padded with
nulls. -/
def leftMerge (key : String) (l r : Table) : Table :=
  { cols := l.cols ++ nonKeyCols key r.cols
    rows := l.rows.flatMap fun lrow =>
      let k := lookupCol l.cols lrow key
      let ms := r.rows.filter fun rrow => keysMatch k (lookupCol r.cols rrow key)
      if ms.isEmpty then
        [lrow ++ (nonKeyCols key r.cols).map fun _ => Value.null]
      else
        ms.map fun rrow => lrow ++ dropKeyVals key r.cols rrow }

/-- `left.merge(right, on=key, how="inner")`: only matched rows are kept. -/
def innerMerge (key : String) (l r : Table) : Table :=
  { cols := l.cols ++ nonKeyCols key r.cols
    rows := l.rows.flatMap fun lrow =>
      let k := lookupCol l.cols lrow key
      let ms := r.rows.filter fun rrow => keysMatch k (lookupCol r.cols rrow key)
      ms.map fun rrow => lrow ++ dropKeyVals key r.cols rrow }

/-- `df.dropna()`: keep only rows with no missing cell. -/
def dropna (t : Table) : Table :=
  { t with rows := t.rows.filter fun r => r.all Value.isNotNull }

/-- `df.fillna(v)`: replace every missing cell by `v`. -/
def fillna (v : Value) (t : Table) : Table :=
  { t with rows := t.rows.map fun r => r.map fun c => if c = .null then v else c }

example :
    leftMerge "AGS"
      ⟨["AGS", "m"], [[.str "1", .num 10], [.str "2", .num 20]]⟩
      ⟨["AGS", "v"], [[.str "1", .num 7]]⟩ =
      ⟨["AGS", "m", "v"],
        [[.str "1", .num 10, .num 7], [.str "2", .num 20, .null]]⟩ := by
  decide

example :
    innerMerge "AGS"
      ⟨["AGS", "m"], [[.str "1", .num 10], [.str "2", .num 20]]⟩
      ⟨["AGS", "v"], [[.str "1", .num 7]]⟩ =
      ⟨["AGS", "m", "v"], [[.str "1", .num 10, .num 7]]⟩ := by
  decide

-- `pd.merge` joins NA keys to each other: a null-key left row picks up every
-- null-key right row, duplicating the left row when there are two of them.
example :
    leftMerge "AGS"
      ⟨["AGS", "m"], [[.null, .num 1]]⟩
      ⟨["AGS", "v"], [[.null, .num 7], [.null, .num 8]]⟩ =
      ⟨["AGS", "m", "v"],
        [[.null, .num 1, .num 7], [.null, .num 1, .num 8]]⟩ := by
  decide

/-- A feature-engineering transform instance (`BaseFeatureEngineering`): the
declared `input_columns`, the subtype's overridable `_validate` hook, and its
`_apply` implementation.  The `output_column` attribute and any further
constructor parameters live inside `applyImpl`. -/
structure FeatureEngineering where
  input_columns : List String
  validateHook : Table → Bool
  applyImpl : Table → Except PyError Table

/-- `BaseFeatureEngineering.validate`: first the required input columns must
all be present in the frame, then the subtype hook `_validate` runs. -/
def FeatureEngineering.validate (fe : FeatureEngineering) (df : Table) : Bool :=
  fe.input_columns.all (fun c => df.cols.contains c) && fe.validateHook df

/-- `BaseFeatureEngineering.apply`: raise `ValueError` when validation fails,
otherwise run `_apply` on a copy of the input (tables are immutable values
here, so `df.copy()` is the value itself). -/
def FeatureEngineering.apply (fe : FeatureEngineering) (df : Table) :
    Except PyError Table :=
  if fe.validate df then fe.applyImpl df else .error .validationError

/-- A `BaseFeature` instance: the raw table its `load()` produces, its
`transform`, and the `before_transforms` list built by `__init__`. -/
structure Feature where
  load : Table
  transform : Table → Table
  before_transforms : List FeatureEngineering

/-- A Python `for` loop that collects `f x` for each element and lets the
first raised exception propagate. -/
def mapExcept (f : α → Except ε β) : List α → Except ε (List β)
  | [] => .ok []
  | a :: l =>
    match f a with
    | .error e => .error e
    | .ok b =>
      match mapExcept f l with
      | .error e => .error e
      | .ok bs => .ok (b :: bs)

/-- `BaseFeature.load_transform`: load the raw table, apply every
before-transform to that raw (pre-`transform`) table in registration order,
run `transform` on the raw table, then left-merge every engineered table onto
the transformed table on the fixed key `"AGS"`. -/
def Feature.load_transform (f : Feature) : Except PyError Table :=
  let raw := f.load
  match mapExcept (fun t => t.apply raw) f.before_transforms with
  | .error e => .error e
  | .ok engineered =>
    .ok (engineered.foldl (fun acc e => leftMerge "AGS" acc e) (f.transform raw))

/-- The `missing_values` strategies of `MatrixConfig`. -/
inductive MissingValues
  | drop
  | fill
deriving DecidableEq, Repr

/-- `MatrixConfig` (features/config.py, lines 42-53), with exactly the fields
the pydantic model declares: `join_key`, `save_output`, `output_path`,
`missing_values`, `fill_value`.  There is no `join_method` field. -/
structure MatrixConfig where
  join_key : String := "AGS"
  save_output : Bool := true
  output_path : String := "data/final/feature_matrix.csv"
  missing_values : Option MissingValues := none
  fill_value : Value := .num 0
deriving DecidableEq, Repr

/-- The column renaming of `build_matrix`: every non-join-key column `c` of a
feature's frame becomes `name ++ "_" ++ c`; the join key is untouched. -/
def renameCols (name key : String) (t : Table) : Table :=
  { cols := t.cols.map (fun c => if c = key then c else name ++ "_" ++ c)
    rows := t.rows }

/-- The per-feature body of the `build_matrix` loop: `load_transform` the
feature, require the join key in its columns, and prefix its other columns
with the feature name. -/
def featureFrame (cfg : MatrixConfig) (nf : String × Feature) :
    Except PyError Table :=
  match nf.2.load_transform with
  | .error e => .error e
  | .ok df =>
    if cfg.join_key ∈ df.cols then .ok (renameCols nf.1 cfg.join_key df)
    else .error (.missingJoinKey nf.1 cfg.join_key)

/-- `FeatureMatrixBuilder.build_matrix` over the builder state after
`load_features`: the base municipalities feature and the `self.features` dict
in insertion order.  Each feature is load-transformed, checked for the join
key, renamed, and left-merged onto the base table; then the missing-value
policy is applied.  (The `save_output` step is filesystem I/O and is not
modelled.) -/
def build_matrix (cfg : MatrixConfig) (municipalities : Feature)
    (features : List (String × Feature)) : Except PyError Table :=
  if features.isEmpty then .error .noFeatures
  else
    match mapExcept (featureFrame cfg) features with
    | .error e => .error e
    | .ok featureDfs =>
      match municipalities.load_transform with
      | .error e => .error e
      | .ok base =>
        let merged := featureDfs.foldl
          (fun acc df => leftMerge cfg.join_key acc df) base
        match cfg.missing_values with
        | some .drop => .ok (dropna merged)
        | some .fill => .ok (fillna cfg.fill_value merged)
        | none => .ok merged

/-- The join methods enumerated by the spec's `FeatureMatrixConfig`. -/
inductive JoinMethod
  | inner
  | outer
  | left
  | right
deriving DecidableEq, Repr

/-- `left.merge(right, on=key, how="right")`: rows driven by the right table;
unmatched right rows keep their key and pad the left value columns with
nulls. -/
def rightMerge (key : String) (l r : Table) : Table :=
  { cols := l.cols ++ nonKeyCols key r.cols
    rows := r.rows.flatMap fun rrow =>
      let k := lookupCol r.cols rrow key
      let ms := l.rows.filter fun lrow => keysMatch (lookupCol l.cols lrow key) k
      if ms.isEmpty then
        [l.cols.map (fun c =>
            if c = key then (match k with | some v => v | none => Value.null)
            else Value.null) ++ dropKeyVals key r.cols rrow]
      else
        ms.map fun lrow => lrow ++ dropKeyVals key r.cols rrow }

/-- `left.merge(right, on=key, how="outer")`: the left-join rows followed by
the right rows that matched nothing on the left. -/
def outerMerge (key : String) (l r : Table) : Table :=
  { cols := l.cols ++ nonKeyCols key r.cols
    rows := (leftMerge key l r).rows ++
      ((r.rows.filter fun rrow =>
          l.rows.all fun lrow =>
            !keysMatch (lookupCol l.cols lrow key) (lookupCol r.cols rrow key)).map
        fun rrow =>
          l.cols.map (fun c =>
            if c = key then
              (match lookupCol r.cols rrow key with | some v => v | none => Value.null)
            else Value.null) ++ dropKeyVals key r.cols rrow) }

/-- Merge with an explicitly selected join method. -/
def mergeWith : JoinMethod → String → Table → Table → Table
  | .inner, key, l, r => innerMerge key l r
  | .outer, key, l, r => outerMerge key l r
  | .left, key, l, r => leftMerge key l r
  | .right, key, l, r => rightMerge key l r

/-- Modelled from the spec: "The matrix builder's configuration ... includes a
join_method field taking one of inner, outer, left, right, and build_matrix
merges every feature table onto the base table using that configured join
method."  Identical pipeline to the code's `build_matrix`, except that the
merge operation is selected by the `join_method` argument. -/
def build_matrix_spec (joinMethod : JoinMethod) (cfg : MatrixConfig)
    (municipalities : Feature) (features : List (String × Feature)) :
    Except PyError Table :=
  if features.isEmpty then .error .noFeatures
  else
    match mapExcept (featureFrame cfg) features with
    | .error e => .error e
    | .ok featureDfs =>
      match municipalities.load_transform with
      | .error e => .error e
      | .ok base =>
        let merged := featureDfs.foldl
          (fun acc df => mergeWith joinMethod cfg.join_key acc df) base
        match cfg.missing_values with
        | some .drop => .ok (dropna merged)
        | some .fill => .ok (fillna cfg.fill_value merged)
        | none => .ok merged

/-! ### Left-join characterisation -/

/-- The join-key cell of each row of a table, in row order. -/
def keyList (key : String) (t : Table) : List (Option Value) :=
  t.rows.map fun r => lookupCol t.cols r key

/-- The rows of `t` carry pairwise non-joinable key cells: no two rows can
match the same key.  Since `pd.merge` joins null keys to each other, this
allows at most one null-key row as well. -/
def KeyUnique (key : String) (t : Table) : Prop :=
  t.rows.Pairwise fun a b =>
    keysMatch (lookupCol t.cols a key) (lookupCol t.cols b key) = false

instance (key : String) (t : Table) : Decidable (KeyUnique key t) := by
  unfold KeyUnique; infer_instance

theorem eq_of_keysMatch {k a : Option Value} (h : keysMatch k a = true) : a = k := by
  cases k with
  | none => simp [keysMatch] at h
  | some kv =>
    cases a with
    | none => simp [keysMatch] at h
    | some av => simp_all [keysMatch]

theorem length_filter_le_one {α : Type _} {p : α → Bool} :
    ∀ {l : List α}, (l.Pairwise fun a b => ¬(p a = true ∧ p b = true)) →
      (l.filter p).length ≤ 1 := by
  intro l h
  induction l with
  | nil => simp
  | cons x xs ih =>
    rcases List.pairwise_cons.mp h with ⟨hx, hxs⟩
    by_cases hp : p x = true
    · rw [List.filter_cons_of_pos hp]
      have hnil : xs.filter p = [] :=
        List.filter_eq_nil_iff.mpr fun b hb hpb => (hx b hb) ⟨hp, hpb⟩
      simp [hnil]
    · rw [List.filter_cons_of_neg hp]
      exact ih hxs

theorem not_mem_nonKeyCols (key : String) (cols : List String) :
    key ∉ nonKeyCols key cols := by
  unfold nonKeyCols
  intro h
  have := List.of_mem_filter h
  simp at this

theorem lookupCol_append_left {cols extra : List String} {row pad : List Value}
    {key : String} (hlen : cols.length ≤ row.length) (hkey : key ∉ extra) :
    lookupCol (cols ++ extra) (row ++ pad) key = lookupCol cols row key := by
  unfold lookupCol
  rw [List.findIdx?_append]
  cases h : cols.findIdx? (fun c => c = key) with
  | some i =>
    have hi : i < cols.length := (List.findIdx?_eq_some_iff_findIdx_eq.mp h).1
    simp only [Option.or_some, Option.some_bind]
    rw [List.get?_eq_getElem?, List.get?_eq_getElem?,
      List.getElem?_append_left (Nat.lt_of_lt_of_le hi hlen)]
  | none =>
    have hex : extra.findIdx? (fun c => c = key) = none :=
      List.findIdx?_eq_none_iff.mpr fun x hx => by
        simp only [decide_eq_false_iff_not]
        intro hxk
        exact hkey (hxk ▸ hx)
    simp [hex]

theorem dropKeyVals_length {key : String} :
    ∀ {cols : List String} {row : List Value}, row.length = cols.length →
      (dropKeyVals key cols row).length = (nonKeyCols key cols).length := by
  unfold dropKeyVals nonKeyCols
  intro cols
  induction cols with
  | nil => intro row h; simp
  | cons c cs ih =>
    intro row h
    cases row with
    | nil => simp at h
    | cons v vs =>
      simp only [List.length_cons, Nat.succ.injEq] at h
      have ih' := @ih vs h
      simp only [decide_not] at ih'
      by_cases hc : c = key
      · simpa [List.zip_cons_cons, hc] using ih'
      · simpa [List.zip_cons_cons, hc] using ih'

theorem flatMap_eq_map_of_forall {α β : Type _} {F : α → List β} {h : α → β} :
    ∀ {l : List α}, (∀ x ∈ l, F x = [h x]) → l.flatMap F = l.map h := by
  intro l hF
  induction l with
  | nil => rfl
  | cons a t ih =>
    rw [List.flatMap_cons, hF a (by simp), List.map_cons,
      ih fun x hx => hF x (List.mem_cons_of_mem a hx)]
    rfl

theorem leftMerge_WF {key : String} {l r : Table} (hl : l.WF) (hr : r.WF) :
    (leftMerge key l r).WF := by
  unfold Table.WF leftMerge
  simp only [List.mem_flatMap]
  intro row hrow
  obtain ⟨lrow, hlrow, hmem⟩ := hrow
  by_cases hms : (r.rows.filter fun rrow =>
      keysMatch (lookupCol l.cols lrow key) (lookupCol r.cols rrow key)).isEmpty
  · rw [if_pos hms] at hmem
    simp only [List.mem_singleton] at hmem
    subst hmem
    simp [hl lrow hlrow]
  · rw [if_neg hms] at hmem
    simp only [List.mem_map] at hmem
    obtain ⟨rrow, hrr, rfl⟩ := hmem
    have hrrmem : rrow ∈ r.rows := List.mem_of_mem_filter hrr
    simp [hl lrow hlrow, dropKeyVals_length (hr rrow hrrmem)]

theorem keyList_leftMerge {key : String} {l r : Table} (hl : l.WF)
    (hu : KeyUnique key r) :
    keyList key (leftMerge key l r) = keyList key l := by
  unfold keyList leftMerge
  rw [List.map_flatMap]
  apply flatMap_eq_map_of_forall
  intro lrow hlrow
  have hlen : l.cols.length ≤ lrow.length := Nat.le_of_eq (hl lrow hlrow).symm
  simp only
  by_cases hms : (r.rows.filter fun rrow =>
      keysMatch (lookupCol l.cols lrow key) (lookupCol r.cols rrow key)).isEmpty
  · rw [if_pos hms]
    simp [lookupCol_append_left hlen (not_mem_nonKeyCols key r.cols)]
  · rw [if_neg hms]
    have hp : r.rows.Pairwise fun a b =>
        ¬(keysMatch (lookupCol l.cols lrow key) (lookupCol r.cols a key) = true ∧
          keysMatch (lookupCol l.cols lrow key) (lookupCol r.cols b key) = true) := by
      refine List.Pairwise.imp ?_ hu
      intro a b hab hcon
      obtain ⟨pa, pb⟩ := hcon
      rw [eq_of_keysMatch pa, eq_of_keysMatch pb] at hab
      rw [eq_of_keysMatch pa] at pa
      exact absurd pa (by simp [hab])
    have hle := length_filter_le_one hp
    cases hmeq : r.rows.filter (fun rrow =>
        keysMatch (lookupCol l.cols lrow key) (lookupCol r.cols rrow key)) with
    | nil => rw [hmeq] at hms; simp at hms
    | cons a t =>
      cases t with
      | nil =>
        simp [lookupCol_append_left hlen (not_mem_nonKeyCols key r.cols)]
      | cons b t2 =>
        rw [hmeq] at hle
        simp at hle

theorem renameCols_WF {name key : String} {t : Table} (h : t.WF) :
    (renameCols name key t).WF := by
  unfold Table.WF renameCols at *
  intro r hr
  simp only [List.length_map]
  exact h r hr

theorem keyList_foldl {key : String} :
    ∀ (dfs : List Table) (acc : Table), acc.WF →
      (∀ d ∈ dfs, d.WF ∧ KeyUnique key d) →
      keyList key (dfs.foldl (fun a d => leftMerge key a d) acc) = keyList key acc ∧
      (dfs.foldl (fun a d => leftMerge key a d) acc).WF := by
  intro dfs
  induction dfs with
  | nil => intro acc hacc _; exact ⟨rfl, hacc⟩
  | cons d ds ih =>
    intro acc hacc hd
    obtain ⟨hdWF, hdU⟩ := hd d (by simp)
    have hstep := ih (leftMerge key acc d) (leftMerge_WF hacc hdWF)
      fun x hx => hd x (List.mem_cons_of_mem d hx)
    refine ⟨?_, hstep.2⟩
    rw [List.foldl_cons, hstep.1, keyList_leftMerge hacc hdU]

theorem mapExcept_ok_of_forall {α β : Type _} {ε : Type _} {f : α → Except ε β}
    {P : β → Prop} :
    ∀ {l : List α}, (∀ x ∈ l, ∃ b, f x = .ok b ∧ P b) →
      ∃ bs, mapExcept f l = .ok bs ∧ ∀ b ∈ bs, P b := by
  intro l h
  induction l with
  | nil => exact ⟨[], rfl, by simp⟩
  | cons a t ih =>
    obtain ⟨b, hb, hPb⟩ := h a (by simp)
    obtain ⟨bs, hbs, hPbs⟩ := ih fun x hx => h x (List.mem_cons_of_mem a hx)
    refine ⟨b :: bs, ?_, ?_⟩
    · unfold mapExcept
      rw [hb, hbs]
    · intro x hx
      rcases List.mem_cons.mp hx with rfl | hx2
      · exact hPb
      · exact hPbs x hx2

theorem mapExcept_ok_of_forall₂ {α β : Type _} {ε : Type _} {f : α → Except ε β} :
    ∀ {l : List α} {out : List β},
      List.Forall₂ (fun a b => f a = .ok b) l out → mapExcept f l = .ok out := by
  intro l out h
  induction h with
  | nil => rfl
  | cons h1 _ ih =>
    unfold mapExcept
    rw [h1, ih]

/-! ### Concrete fixtures -/

/-- Base municipalities table: AGS 1 and 2. -/
def muniTable : Table := ⟨["AGS", "m"], [[.str "1", .num 10], [.str "2", .num 20]]⟩

/-- Municipalities feature: loads `muniTable`, identity transform. -/
def muniFeature : Feature := ⟨muniTable, id, []⟩

/-- A feature whose table only covers AGS 1. -/
def smallFeature : Feature := ⟨⟨["AGS", "v"], [[.str "1", .num 7]]⟩, id, []⟩

/-- C2: when every registered before-transform, applied to the *loaded*
(pre-`transform`) table, produces its keyed table, `load_transform` returns
the output of `transform` with each engineered table left-merged onto it on
the shared join key, in registration order. -/
theorem load_transform_merges_before_transforms
    (f : Feature) (engs : List Table)
    (h : List.Forall₂ (fun t e => t.apply f.load = Except.ok e)
      f.before_transforms engs) :
    f.load_transform =
      .ok (engs.foldl (fun acc e => leftMerge "AGS" acc e)
        (f.transform f.load)) := by
  unfold Feature.load_transform
  simp only [mapExcept_ok_of_forall₂ h]

/-- A before-transform fixture: requires column `v`, emits a keyed table. -/
def homogFE : FeatureEngineering :=
  ⟨["v"], fun _ => true, fun _ => .ok ⟨["AGS", "h"], [[.str "1", .num 5]]⟩⟩

/-- A feature with one before-transform. -/
def featWithBefore : Feature := ⟨⟨["AGS", "v"], [[.str "1", .num 2]]⟩, id, [homogFE]⟩

/-- Witness for `load_transform_merges_before_transforms`. -/
theorem load_transform_merges_before_transforms_witness :
    featWithBefore.load_transform =
      .ok (List.foldl (fun acc e => leftMerge "AGS" acc e)
        (featWithBefore.transform featWithBefore.load)
        [⟨["AGS", "h"], [[.str "1", .num 5]]⟩]) :=
  load_transform_merges_before_transforms featWithBefore
    [⟨["AGS", "h"], [[.str "1", .num 5]]⟩]
    (List.Forall₂.cons rfl List.Forall₂.nil)

/-! ### Component loading (features/base.py, features/matrix_builder.py) -/

/-- `FeatureConfig` (features/config.py lines 21-29): the pydantic model's
declared fields — `name`, `class_name` (alias `class`), `module`, `params`.
No `before_transforms` field is declared.  Parameter values are modelled as
cells; only their names matter to the loader. -/
structure FeatureConfig where
  name : String
  class_name : String
  module : String
  params : List (String × Value)
deriving DecidableEq, Repr

/-- A nested FeatureEngineering descriptor (`FeatureEngineeringConfig`). -/
structure FEConfig where
  name : String
  class_name : String
  module : String
  input_columns : List String
  output_column : String
  params : List (String × Value)
deriving DecidableEq, Repr

/-- A Python feature class: the keyword parameters its `__init__` accepts
besides `before_transforms`, and the subclass state (`load` data and
`transform`) built from them. -/
structure FeatureClass where
  acceptedParams : List String
  makeCore : List (String × Value) → Table × (Table → Table)

/-- Calling `feature_class(**params, before_transforms=bts)`: a keyword
argument outside the accepted set raises `TypeError`; otherwise
`BaseFeature.__init__` resolves each descriptor in `bts` into a transform
instance (`get_feature_engineering_class` plus constructor call, modelled by
`resolveFE`) and stores the list. -/
def constructFeature (cls : FeatureClass)
    (resolveFE : FEConfig → Except PyError FeatureEngineering)
    (params : List (String × Value)) (bts : List FEConfig) :
    Except PyError Feature :=
  if params.all (fun p => cls.acceptedParams.contains p.1) then
    match mapExcept resolveFE bts with
    | .error e => .error e
    | .ok fes =>
      let core := cls.makeCore params
      .ok ⟨core.1, core.2, fes⟩
  else .error .typeError

/-- `FeatureMatrixBuilder._instantiate_feature` (matrix_builder.py lines
67-101): resolve module and class (`resolveClass`), then call
`feature_class(**params)`.  No `before_transforms` argument is passed, so
`BaseFeature.__init__` receives its default `None` and the instance ends up
with an empty transform list. -/
def instantiateFeatureBuilder
    (resolveClass : String → String → Except PyError FeatureClass)
    (resolveFE : FEConfig → Except PyError FeatureEngineering)
    (cfg : FeatureConfig) : Except PyError Feature :=
  match resolveClass cfg.module cfg.class_name with
  | .error e => .error e
  | .ok cls => constructFeature cls resolveFE cfg.params []

/-- `instantiate_feature` (features/base.py lines 68-102).  After the module
and class resolve, the call site is
`feature_class(**params, before_transforms=config.before_transforms)`.
The `FeatureConfig` pydantic model declares no `before_transforms` field, so
evaluating `config.before_transforms` raises `AttributeError` before the
class is ever called; the surrounding `except AttributeError` handler logs
and re-raises it. -/
def instantiate_feature
    (resolveClass : String → String → Except PyError FeatureClass)
    (cfg : FeatureConfig) : Except PyError Feature :=
  match resolveClass cfg.module cfg.class_name with
  | .error e => .error e
  | .ok _ => .error .attributeError

/-- A mock feature class accepting a single `data` keyword. -/
def mockClass : FeatureClass := ⟨["data"], fun _ => (muniTable, id)⟩

/-- The descriptor used by the repository's own loader test
(`tests/data_flow/features/test_feature_base.py::test_instantiate_feature`). -/
def mockFeatureConfig : FeatureConfig :=
  ⟨"mock_feature", "MockFeature", "tests.mock", []⟩

/-- C3: the loaders do not deliver the claimed `before_transforms` wiring.
`instantiate_feature` raises `AttributeError` on every descriptor (the
`FeatureConfig` model has no `before_transforms` field to read), even when
module and class resolve — the repository's own test expects it to return an
instance.  The builder's `_instantiate_feature` succeeds but passes no
`before_transforms` argument at all, so the instance carries an empty
transform list. -/
theorem instantiate_feature_before_transforms_bug :
    instantiate_feature (fun _ _ => .ok mockClass) mockFeatureConfig =
      .error .attributeError ∧
    ∃ feat, instantiateFeatureBuilder (fun _ _ => .ok mockClass)
        (fun _ => .ok homogFE) mockFeatureConfig = .ok feat ∧
      feat.before_transforms = [] :=
  ⟨rfl, ⟨_, rfl, rfl⟩⟩

/-- `FeaturesYAMLConfig` (features/config.py lines 56-70): the root schema.
`MunicipalitiesConfig` shares `FeatureConfig`'s fields (its `name` merely
defaults to "municipalities"). -/
structure FeaturesYAMLConfig where
  municipalities : FeatureConfig
  features : List FeatureConfig
  before_transforms : List FEConfig
  after_transforms : List FEConfig
  standalone_transforms : List FEConfig
  matrix : MatrixConfig

/-- `self.features[name] = instance` on a Python dict: replace in place when
the key exists, else append (insertion order is preserved). -/
def dictInsert (d : List (String × Feature)) (k : String) (v : Feature) :
    List (String × Feature) :=
  if d.any (fun p => p.1 = k) then
    d.map fun p => if p.1 = k then (k, v) else p
  else d ++ [(k, v)]

/-- `FeatureMatrixBuilder.load_features` (matrix_builder.py lines 103-122):
resolve the municipalities feature first — a failure there propagates — then
instantiate every listed feature, catching any exception, logging it and
continuing with the rest.  `inst` abstracts `self._instantiate_feature`. -/
def load_features (inst : FeatureConfig → Except PyError Feature)
    (cfg : FeaturesYAMLConfig) :
    Except PyError (Feature × List (String × Feature)) :=
  match inst cfg.municipalities with
  | .error e => .error e
  | .ok muni =>
    .ok (muni, cfg.features.foldl (fun acc fc =>
      match inst fc with
      | .ok feat => dictInsert acc fc.name feat
      | .error _ => acc) [])

/-- `get_feature_names` (matrix_builder.py lines 198-204): the dict's keys in
insertion order. -/
def get_feature_names (features : List (String × Feature)) : List String :=
  features.map (·.1)

theorem mem_get_feature_names_dictInsert {d : List (String × Feature)}
    {k n : String} {v : Feature} :
    n ∈ get_feature_names (dictInsert d k v) ↔
      n ∈ get_feature_names d ∨ n = k := by
  unfold dictInsert get_feature_names
  by_cases h : d.any (fun p => p.1 = k)
  · rw [if_pos h]
    have hkeys : ∀ p : String × Feature,
        (if p.1 = k then (k, v) else p).1 = p.1 := by
      intro p
      split
      · rename_i hh; rw [← hh]
      · rfl
    have hmap : (d.map fun p => if p.1 = k then (k, v) else p).map (·.1) =
        d.map (·.1) := by
      rw [List.map_map]
      exact List.map_congr_left fun p _ => hkeys p
    rw [hmap]
    constructor
    · exact Or.inl
    · rintro (hn | rfl)
      · exact hn
      · obtain ⟨p, hp, hpk⟩ := List.any_eq_true.mp h
        simp only [decide_eq_true_eq] at hpk
        exact List.mem_map.mpr ⟨p, hp, hpk⟩
  · rw [if_neg h]
    simp [List.mem_append, eq_comm]

theorem mem_get_feature_names_load_foldl
    (inst : FeatureConfig → Except PyError Feature) :
    ∀ (fcs : List FeatureConfig) (acc : List (String × Feature)) (n : String),
      n ∈ get_feature_names (fcs.foldl (fun acc fc =>
        match inst fc with
        | .ok feat => dictInsert acc fc.name feat
        | .error _ => acc) acc) ↔
      n ∈ get_feature_names acc ∨
        ∃ fc ∈ fcs, fc.name = n ∧ ∃ feat, inst fc = .ok feat := by
  intro fcs
  induction fcs with
  | nil => simp
  | cons fc fcs ih =>
    intro acc n
    rw [List.foldl_cons]
    cases hfc : inst fc with
    | ok feat =>
      rw [ih]
      simp only [mem_get_feature_names_dictInsert, List.mem_cons, hfc]
      constructor
      · rintro ((hn | rfl) | ⟨fc2, h2, hn2, hok2⟩)
        · exact Or.inl hn
        · exact Or.inr ⟨fc, Or.inl rfl, rfl, feat, hfc⟩
        · exact Or.inr ⟨fc2, Or.inr h2, hn2, hok2⟩
      · rintro (hn | ⟨fc2, h2 | h2, hn2, hok2⟩)
        · exact Or.inl (Or.inl hn)
        · subst h2; exact Or.inl (Or.inr hn2.symm)
        · exact Or.inr ⟨fc2, h2, hn2, hok2⟩
    | error e =>
      rw [ih]
      simp only [List.mem_cons, hfc]
      constructor
      · rintro (hn | ⟨fc2, h2, hn2, hok2⟩)
        · exact Or.inl hn
        · exact Or.inr ⟨fc2, Or.inr h2, hn2, hok2⟩
      · rintro (hn | ⟨fc2, h2 | h2, hn2, ⟨feat, hok2⟩⟩)
        · exact Or.inl hn
        · subst h2; rw [hfc] at hok2; exact absurd hok2 (by simp)
        · exact Or.inr ⟨fc2, h2, hn2, feat, hok2⟩

/-- C4: during builder construction, a resolution failure for the base
municipalities feature propagates (fatal), while a failure for a listed
feature only removes that feature from the final dict: its name is absent
from `get_feature_names()` (provided every same-named entry fails), and every
feature that does resolve is still present. -/
theorem load_features_failure_policy
    (inst : FeatureConfig → Except PyError Feature) (cfg : FeaturesYAMLConfig) :
    ((∃ e, inst cfg.municipalities = .error e) →
      ∃ e, load_features inst cfg = .error e) ∧
    (∀ muni, inst cfg.municipalities = .ok muni →
      ∃ feats, load_features inst cfg = .ok (muni, feats) ∧
        (∀ fc ∈ cfg.features,
          (∀ fc2 ∈ cfg.features, fc2.name = fc.name → ∃ e, inst fc2 = .error e) →
          fc.name ∉ get_feature_names feats) ∧
        (∀ fc ∈ cfg.features, (∃ feat, inst fc = .ok feat) →
          fc.name ∈ get_feature_names feats)) := by
  constructor
  · rintro ⟨e, he⟩
    refine ⟨e, ?_⟩
    unfold load_features
    rw [he]
  · intro muni hmuni
    unfold load_features
    rw [hmuni]
    refine ⟨_, rfl, ?_, ?_⟩
    · intro fc hfc hall
      rw [mem_get_feature_names_load_foldl]
      rintro (hn | ⟨fc2, h2, hn2, feat, hok2⟩)
      · simp [get_feature_names] at hn
      · obtain ⟨e, he⟩ := hall fc2 h2 hn2
        rw [he] at hok2
        exact absurd hok2 (by simp)
    · intro fc hfc hok
      rw [mem_get_feature_names_load_foldl]
      exact Or.inr ⟨fc, hfc, rfl, hok⟩

/-- A resolvable feature descriptor. -/
def goodCfg : FeatureConfig := ⟨"good", "MockFeature", "tests.mock", []⟩

/-- A descriptor whose module does not import. -/
def badCfg : FeatureConfig := ⟨"bad", "Broken", "nonexistent.module", []⟩

/-- A manifest listing one resolvable and one unresolvable feature. -/
def yamlCfgW : FeaturesYAMLConfig :=
  ⟨mockFeatureConfig, [goodCfg, badCfg], [], [], [], {}⟩

/-- A resolver that fails exactly on the broken module. -/
def instW : FeatureConfig → Except PyError Feature := fun fc =>
  if fc.module = "nonexistent.module" then .error .resolutionError
  else .ok muniFeature

/-- Witness for `load_features_failure_policy`. -/
theorem load_features_failure_policy_witness :
    ∃ feats, load_features instW yamlCfgW = .ok (muniFeature, feats) ∧
      "bad" ∉ get_feature_names feats ∧ "good" ∈ get_feature_names feats := by
  obtain ⟨feats, hok, habs, hpres⟩ :=
    (load_features_failure_policy instW yamlCfgW).2 muniFeature rfl
  refine ⟨feats, hok, ?_, ?_⟩
  · refine habs badCfg (by simp [yamlCfgW]) ?_
    intro fc2 h2 hn
    simp only [yamlCfgW] at h2
    rcases List.mem_cons.mp h2 with rfl | h2
    · exact absurd hn (by decide)
    · rcases List.mem_singleton.mp h2 with rfl
      exact ⟨.resolutionError, rfl⟩
  · exact hpres goodCfg (by simp [yamlCfgW]) ⟨muniFeature, rfl⟩

/-! ### Validation contract (feature_engineering/base.py) -/

/-- C5: `apply` raises the validation `ValueError` whenever some declared
input column is absent from the frame (and hence never runs `_apply`), and
when every input column is present (and the subtype's overridable `_validate`
hook accepts), `validate` returns true and `apply` proceeds to `_apply` on a
copy of the input. -/
theorem apply_validates_input_columns (fe : FeatureEngineering) (df : Table) :
    ((∃ c ∈ fe.input_columns, c ∉ df.cols) →
      fe.apply df = .error .validationError) ∧
    ((∀ c ∈ fe.input_columns, c ∈ df.cols) → fe.validateHook df = true →
      fe.validate df = true ∧ fe.apply df = fe.applyImpl df) := by
  constructor
  · rintro ⟨c, hc, hnc⟩
    have hval : fe.validate df = false := by
      unfold FeatureEngineering.validate
      have : fe.input_columns.all (fun c => df.cols.contains c) = false :=
        List.all_eq_false.mpr ⟨c, hc, by simpa using hnc⟩
      rw [this, Bool.false_and]
    unfold FeatureEngineering.apply
    rw [hval]
    rfl
  · intro hall hhook
    have hval : fe.validate df = true := by
      unfold FeatureEngineering.validate
      rw [List.all_eq_true.mpr fun c hc => by simpa using hall c hc, hhook]
      rfl
    refine ⟨hval, ?_⟩
    unfold FeatureEngineering.apply
    rw [hval]
    rfl

/-- Witness for `apply_validates_input_columns`: `homogFE` requires column
`v`; it rejects `muniTable` (no such column) and passes on a frame that has
it. -/
theorem apply_validates_input_columns_witness :
    homogFE.apply muniTable = .error .validationError ∧
    (homogFE.validate ⟨["AGS", "v"], [[.str "1", .num 2]]⟩ = true ∧
      homogFE.apply ⟨["AGS", "v"], [[.str "1", .num 2]]⟩ =
        homogFE.applyImpl ⟨["AGS", "v"], [[.str "1", .num 2]]⟩) :=
  ⟨(apply_validates_input_columns homogFE muniTable).1 (by decide),
   (apply_validates_input_columns homogFE ⟨["AGS", "v"], [[.str "1", .num 2]]⟩).2
     (by decide) rfl⟩

/-! ### Homogeneity (feature_engineering/homogenity.py) -/

/-- The state of a `HomogeneityFeatureEngineering` after
`__init__(input_columns, output_columns, weight_column)`:
`BaseFeatureEngineering.__init__` stores the `output_columns` argument under
the attribute name `output_column`, and no attribute named `output_columns`
is ever assigned. -/
structure Homogeneity where
  input_columns : List String
  output_column : List String
  weight_column : String
deriving DecidableEq, Repr

/-- Whether `df.groupby("AGS")` yields some group with at least two rows
(groupby drops null keys). -/
def hasBigGroup (df : Table) : Bool :=
  df.rows.any fun r =>
    match lookupCol df.cols r "AGS" with
    | some v => v.isNotNull &&
        decide (2 ≤ (df.rows.filter fun s =>
          lookupCol df.cols s "AGS" = some v).length)
    | none => false

/-- `HomogeneityFeatureEngineering._apply` (homogenity.py lines 35-73).
Groups with fewer than two rows are skipped (`continue`), so a frame whose
groups are all smaller returns `pd.DataFrame([])`, an empty frame.  For any
group with at least two rows the body reads `group[self.weight_column]` and
`group[col]` for each input column (a `KeyError` when one is absent) and
then, in either branch of `if cvs:`, iterates over `self.output_columns` —
an attribute `__init__` never assigned (the constructor argument was stored
as `self.output_column`) — so the first such group raises `AttributeError`.
The numeric guards never raise and never produce infinity: a zero weighted
mean makes `_weighted_cv` return `np.nan` (line 29-30), which is dropped
from `cvs` (line 60-61); zero total weight and all-zero value vectors are
skipped before `_weighted_cv` is called (line 58); an empty `cvs` would emit
`np.nan` (line 69) — but the attribute access on lines 65/68 fires first. -/
def Homogeneity.applyCore (h : Homogeneity) (df : Table) : Except PyError Table :=
  if "AGS" ∉ df.cols then .error (.keyError "AGS")
  else if hasBigGroup df then
    if h.weight_column ∉ df.cols then .error (.keyError h.weight_column)
    else
      match h.input_columns.find? (fun c => !(df.cols.contains c)) with
      | some c => .error (.keyError c)
      | none => .error .attributeError
  else .ok ⟨[], []⟩

/-- The homogeneity instance of the repository's fixtures: input column `v`,
output list `["h"]`, weight column `w`. -/
def homogInst : Homogeneity := ⟨["v"], ["h"], "w"⟩

/-- AGS 1 has two districts, AGS 2 one. -/
def dfPair : Table :=
  ⟨["AGS", "v", "w"],
    [[.str "1", .num 90, .num 1000], [.str "1", .num 100, .num 1000],
     [.str "2", .num 80, .num 500]]⟩

/-- Every AGS has exactly one row. -/
def dfSingles : Table :=
  ⟨["AGS", "v", "w"],
    [[.str "1", .num 90, .num 1000], [.str "2", .num 80, .num 500]]⟩

/-- A single group of two districts whose values are all zero, so the
weighted mean is exactly zero. -/
def dfZeroMean : Table :=
  ⟨["AGS", "v", "w"],
    [[.str "1", .num 0, .num 1000], [.str "1", .num 0, .num 1000]]⟩

/-- C6: groups with fewer than two rows are indeed absent from the output
(the all-singleton frame yields an empty frame), but a group with at least
two rows does **not** contribute an output row: the loop body reads the
never-assigned `self.output_columns` attribute and raises `AttributeError`. -/
theorem homogeneity_big_group_attribute_error :
    Homogeneity.applyCore homogInst dfSingles = .ok ⟨[], []⟩ ∧
    Homogeneity.applyCore homogInst dfPair = .error .attributeError :=
  ⟨rfl, rfl⟩

/-- C7: on a two-row group whose weighted mean is exactly zero the claimed
behaviour is an output row carrying a missing value; the code instead raises
`AttributeError` at `self.output_columns` before any output is built. -/
theorem homogeneity_zero_mean_attribute_error :
    Homogeneity.applyCore homogInst dfZeroMean = .error .attributeError := rfl

/-! ### Filter pattern compilation (modelling/data_filtering.py) -/

/-- The metacharacter set of `_compile_pattern`'s heuristic,
`set(".^$[]()+?|{}\\")` — `*` deliberately excluded. -/
def regexMeta : List Char :=
  ['.', '^', '$', '[', ']', '(', ')', '+', '?', '|', '\x7b', '\x7d', '\\']

/-- Whether the pattern "already looks like a regex". -/
def hasMeta (p : String) : Bool := p.data.any (· ∈ regexMeta)

/-- The characters `re.escape` (CPython 3.7+) prefixes with a backslash. -/
def reSpecialChars : List Char :=
  ['(', ')', '[', ']', '\x7b', '\x7d', '?', '*', '+', '-', '|', '^', '$',
   '\\', '.', '&', '~', '#', ' ', '\t', '\n', '\r', '\x0b', '\x0c']

/-- `re.escape`: escape special characters, pass the rest through. -/
def reEscape (cs : List Char) : List Char :=
  cs.flatMap fun c => if c ∈ reSpecialChars then ['\\', c] else [c]

/-- `str.replace(r"\*", ".*")`: left-to-right, non-overlapping. -/
def replaceEscStar : List Char → List Char
  | [] => []
  | [a] => [a]
  | a :: b :: rest =>
    if a = '\\' ∧ b = '*' then '.' :: '*' :: replaceEscStar rest
    else a :: replaceEscStar (b :: rest)

/-- The regex source string `_compile_pattern` builds: a pattern containing a
regex metacharacter (other than `*`) is used verbatim; otherwise it is
escaped, `\*` is rewritten to `.*`, and the result is anchored with `^`/`$`
for a full-string match. -/
def patternRegex (p : String) : String :=
  if hasMeta p then p
  else ⟨'^' :: replaceEscStar (reEscape p.data) ++ ['$']⟩

/-- `_compile_pattern` (lines 9-32): build the regex source and compile it;
when `re.compile` rejects it the function warns and returns `None`.
`compileOk` abstracts which source strings the `re` engine accepts. -/
def compilePattern (compileOk : String → Bool) (p : String) : Option String :=
  if compileOk (patternRegex p) then some (patternRegex p) else none

/-- One-pass glob translation: `*` becomes `.*`, characters `re.escape`
protects keep their backslash, everything else passes through. -/
def globExpand (cs : List Char) : List Char :=
  cs.flatMap fun c =>
    if c = '*' then ['.', '*']
    else if c ∈ reSpecialChars then ['\\', c] else [c]

theorem replaceEscStar_cons_of_ne {c : Char} (hc : c ≠ '\\') (l : List Char) :
    replaceEscStar (c :: l) = c :: replaceEscStar l := by
  cases l with
  | nil => rfl
  | cons d t =>
    rw [replaceEscStar, if_neg]
    rintro ⟨h1, _⟩
    exact hc h1

theorem replaceEscStar_reEscape :
    ∀ {cs : List Char}, (∀ c ∈ cs, c ∉ regexMeta) →
      replaceEscStar (reEscape cs) = globExpand cs := by
  intro cs h
  induction cs with
  | nil => rfl
  | cons c rest ih =>
    have hc : c ∉ regexMeta := h c (by simp)
    have hrest := ih fun x hx => h x (List.mem_cons_of_mem c hx)
    have hbs : c ≠ '\\' := fun hcc => hc (by rw [hcc]; decide)
    have hesc : reEscape (c :: rest) =
        (if c ∈ reSpecialChars then ['\\', c] else [c]) ++ reEscape rest := by
      simp [reEscape]
    have hglob : globExpand (c :: rest) =
        (if c = '*' then ['.', '*']
          else if c ∈ reSpecialChars then ['\\', c] else [c]) ++ globExpand rest := by
      simp [globExpand]
    rw [hesc, hglob]
    by_cases hstar : c = '*'
    · subst hstar
      rw [if_pos (by decide), if_pos rfl]
      show replaceEscStar ('\\' :: '*' :: reEscape rest) = _
      rw [replaceEscStar, if_pos ⟨rfl, rfl⟩, hrest]
      rfl
    · rw [if_neg hstar]
      by_cases hsp : c ∈ reSpecialChars
      · rw [if_pos hsp]
        show replaceEscStar ('\\' :: c :: reEscape rest) = _
        rw [replaceEscStar, if_neg (by rintro ⟨_, h2⟩; exact hstar h2),
          replaceEscStar_cons_of_ne hbs, hrest]
        rfl
      · rw [if_neg hsp]
        show replaceEscStar (c :: reEscape rest) = _
        rw [replaceEscStar_cons_of_ne hbs, hrest]
        rfl

/-- C8: the compilation rule for filter patterns.  A pattern containing one
of the regex metacharacters `. ^ $ [ ] ( ) + ? | { } \` (but not `*`) is
handed to `re.compile` verbatim; any other pattern is treated as a glob:
literal characters are escaped where needed, each `*` becomes `.*`, and the
whole expression is anchored with `^` and `$` for a full-string match. -/
theorem compile_pattern_rule (p : String) :
    (hasMeta p = true → patternRegex p = p) ∧
    (hasMeta p = false →
      patternRegex p = ⟨'^' :: globExpand p.data ++ ['$']⟩) := by
  constructor
  · intro h
    unfold patternRegex
    rw [if_pos h]
  · intro h
    unfold patternRegex
    rw [if_neg (by simp [h])]
    have hchars : ∀ c ∈ p.data, c ∉ regexMeta := by
      intro c hcm hmem
      have hany : hasMeta p = true := by
        unfold hasMeta
        exact List.any_eq_true.mpr ⟨c, hcm, by simpa using hmem⟩
      rw [hany] at h
      cases h
    rw [replaceEscStar_reEscape hchars]

/-- Witness for `compile_pattern_rule`: `a+b` is kept verbatim, the glob
`census*` compiles to the anchored regex `^census.*$`. -/
theorem compile_pattern_rule_witness :
    patternRegex "a+b" = "a+b" ∧ patternRegex "census*" = "^census.*$" := by
  constructor
  · exact (compile_pattern_rule "a+b").1 (by decide)
  · rw [(compile_pattern_rule "census*").2 (by decide)]
    decide

/-! ### Row filtering (modelling/data_filtering.py, filter_rows) -/

/-- Whether one omit pattern removes the cell `v` (lines 97-102): the pattern
must compile, the cell must be non-null (`~null_mask`), and the compiled
regex must fullmatch the stringified cell.  `matcher` abstracts
`re.fullmatch` of the compiled source on a candidate string, `toStr` the
pandas `astype(str)` rendering. -/
def patternHits (matcher : String → String → Bool) (compileOk : String → Bool)
    (toStr : Value → String) (p : String) (v : Value) : Bool :=
  match compilePattern compileOk p with
  | none => false
  | some r => v.isNotNull && matcher r (toStr v)

/-- The mask entry of one row: some configured column that is present in the
frame has a cell hit by one of its patterns.  (The code builds the mask
column-major and ORs the per-pattern series; evaluated row by row this is the
same boolean.) -/
def rowMasked (matcher : String → String → Bool) (compileOk : String → Bool)
    (toStr : Value → String) (omit_rows : List (String × List String))
    (cols : List String) (row : List Value) : Bool :=
  omit_rows.any fun cp =>
    cols.contains cp.1 &&
      (match lookupCol cols row cp.1 with
       | some v => cp.2.any fun p => patternHits matcher compileOk toStr p v
       | none => false)

/-- `filter_rows` (lines 69-104): an empty `omit_rows` mapping returns the
frame unchanged; a configured column absent from the frame warns and is
skipped; otherwise all masked rows are dropped (`data[~mask]`). -/
def filter_rows (matcher : String → String → Bool) (compileOk : String → Bool)
    (toStr : Value → String) (omit_rows : List (String × List String))
    (data : Table) : Table :=
  if omit_rows.isEmpty then data
  else
    { data with rows := data.rows.filter fun row =>
        !rowMasked matcher compileOk toStr omit_rows data.cols row }

/-- C9: after `filter_rows` with a non-empty `omit_rows` mapping, (a) no
retained row holds, in a configured column that is present in the frame, a
non-null cell whose stringified value fully matches a compiled pattern of
that column; (b) a row whose cells in all configured columns are null is
always retained (nulls are excluded from matching); (c) a configured column
absent from the frame is skipped without affecting the mask: dropping that
entry from the mapping gives the identical result. -/
theorem filter_rows_anti_join (matcher : String → String → Bool)
    (compileOk : String → Bool) (toStr : Value → String)
    (omits : List (String × List String)) (data : Table) :
    (∀ row ∈ (filter_rows matcher compileOk toStr omits data).rows,
      ∀ cp ∈ omits, cp.1 ∈ data.cols →
        ∀ v, lookupCol data.cols row cp.1 = some v → v.isNotNull = true →
          ∀ p ∈ cp.2, ∀ r, compilePattern compileOk p = some r →
            matcher r (toStr v) = false) ∧
    (∀ row ∈ data.rows,
      (∀ cp ∈ omits, ∀ v, lookupCol data.cols row cp.1 = some v → v = .null) →
      row ∈ (filter_rows matcher compileOk toStr omits data).rows) ∧
    (∀ cp : String × List String, cp.1 ∉ data.cols →
      ∀ omits1 omits2 : List (String × List String),
        filter_rows matcher compileOk toStr (omits1 ++ cp :: omits2) data =
          filter_rows matcher compileOk toStr (omits1 ++ omits2) data) := by
  refine ⟨?_, ?_, ?_⟩
  · intro row hrow cp hcp hpresent v hv hnn p hp r hr
    by_cases homit : omits.isEmpty
    · rw [List.isEmpty_iff.mp homit] at hcp
      cases hcp
    · unfold filter_rows at hrow
      rw [if_neg homit] at hrow
      have hmask := List.of_mem_filter hrow
      rw [Bool.not_eq_true'] at hmask
      unfold rowMasked at hmask
      have hall : ¬((data.cols.contains cp.1 &&
          (match lookupCol data.cols row cp.1 with
           | some v => cp.2.any fun p => patternHits matcher compileOk toStr p v
           | none => false)) = true) :=
        List.any_eq_false.mp hmask cp hcp
      have hall2 : (data.cols.contains cp.1 &&
          (match lookupCol data.cols row cp.1 with
           | some v => cp.2.any fun p => patternHits matcher compileOk toStr p v
           | none => false)) = false := Bool.eq_false_iff.mpr hall
      rw [Bool.and_eq_false_iff] at hall2
      rcases hall2 with hcont | hmatch
      · have : data.cols.contains cp.1 = true := by
          simpa using hpresent
        rw [this] at hcont
        cases hcont
      · rw [hv] at hmatch
        have hpat : cp.2.any
            (fun p => patternHits matcher compileOk toStr p v) = false := hmatch
        have hone : ¬(patternHits matcher compileOk toStr p v = true) :=
          List.any_eq_false.mp hpat p hp
        have hone2 : patternHits matcher compileOk toStr p v = false :=
          Bool.eq_false_iff.mpr hone
        unfold patternHits at hone2
        rw [hr, hnn] at hone2
        have hone3 : (true && matcher r (toStr v)) = false := hone2
        rwa [Bool.true_and] at hone3
  · intro row hrow hnulls
    unfold filter_rows
    by_cases homit : omits.isEmpty
    · rw [if_pos homit]
      exact hrow
    · rw [if_neg homit]
      refine List.mem_filter.mpr ⟨hrow, ?_⟩
      rw [Bool.not_eq_true']
      unfold rowMasked
      rw [List.any_eq_false]
      intro cp hcp hb
      rw [Bool.and_eq_true] at hb
      obtain ⟨hc1, hc2⟩ := hb
      cases hlk : lookupCol data.cols row cp.1 with
      | none =>
        rw [hlk] at hc2
        exact Bool.false_ne_true hc2
      | some v =>
        rw [hlk] at hc2
        have hc2' : cp.2.any
            (fun p => patternHits matcher compileOk toStr p v) = true := hc2
        obtain ⟨p, hp, hpat⟩ := List.any_eq_true.mp hc2'
        unfold patternHits at hpat
        cases hcomp : compilePattern compileOk p with
        | none =>
          rw [hcomp] at hpat
          exact Bool.false_ne_true hpat
        | some r =>
          rw [hcomp, hnulls cp hcp v hlk] at hpat
          rw [Bool.and_eq_true] at hpat
          exact Bool.false_ne_true hpat.1
  · intro cp hcp omits1 omits2
    have hcont : data.cols.contains cp.1 = false := by
      simpa using hcp
    have hmaskeq : ∀ row,
        rowMasked matcher compileOk toStr (omits1 ++ cp :: omits2) data.cols row =
          rowMasked matcher compileOk toStr (omits1 ++ omits2) data.cols row := by
      intro row
      unfold rowMasked
      rw [List.any_append, List.any_append, List.any_cons, hcont,
        Bool.false_and, Bool.false_or]
    by_cases hemp : (omits1 ++ omits2).isEmpty
    · obtain ⟨h1, h2⟩ := List.append_eq_nil.mp (List.isEmpty_iff.mp hemp)
      subst h1
      subst h2
      have hrhs : filter_rows matcher compileOk toStr ([] ++ []) data = data := by
        unfold filter_rows
        rfl
      rw [hrhs]
      unfold filter_rows
      rw [if_neg (by simp)]
      have hallkeep : data.rows.filter (fun row =>
          !rowMasked matcher compileOk toStr ([] ++ cp :: []) data.cols row) =
          data.rows := by
        rw [List.filter_eq_self]
        intro row _
        rw [hmaskeq row]
        rfl
      rw [hallkeep]
    · have hleft : ((omits1 ++ cp :: omits2).isEmpty) = false := by
        cases omits1 <;> rfl
      unfold filter_rows
      rw [if_neg (by simp [hleft]), if_neg hemp]
      have hfun : (fun row =>
          !rowMasked matcher compileOk toStr (omits1 ++ cp :: omits2) data.cols row) =
          fun row =>
            !rowMasked matcher compileOk toStr (omits1 ++ omits2) data.cols row :=
        funext fun row => by rw [hmaskeq row]
      rw [hfun]

/-- A toy stringifier: pandas renders a float `NaN` as "nan". -/
def toStrW : Value → String
  | .str s => s
  | .num _ => "num"
  | .null => "nan"

/-- A toy regex engine that understands just the compiled glob `^x.*$`. -/
def matcherW : String → String → Bool :=
  fun r s => r == "^x.*$" && s.data.head? == some 'x'

/-- Omit rows whose column `c` matches the glob `x*`. -/
def omitsW : List (String × List String) := [("c", ["x*"])]

/-- Column `c` with values "xy", "z" and a null. -/
def dataW : Table := ⟨["c"], [[.str "xy"], [.str "z"], [.null]]⟩

/-- Witness for `filter_rows_anti_join`: the retained row "z" matches no
pattern, and the null row survives filtering. -/
theorem filter_rows_anti_join_witness :
    matcherW "^x.*$" (toStrW (.str "z")) = false ∧
    [Value.null] ∈ (filter_rows matcherW (fun _ => true) toStrW omitsW dataW).rows := by
  have h := filter_rows_anti_join matcherW (fun _ => true) toStrW omitsW dataW
  have hres : (filter_rows matcherW (fun _ => true) toStrW omitsW dataW).rows =
      [[.str "z"], [.null]] := rfl
  refine ⟨?_, ?_⟩
  · refine h.1 [.str "z"] ?_ ("c", ["x*"]) ?_ ?_ (.str "z") rfl rfl "x*" ?_
      "^x.*$" ?_
    · rw [hres]
      simp
    · simp [omitsW]
    · simp [dataW]
    · simp
    · rfl
  · refine h.2.1 [Value.null] (by simp [dataW]) ?_
    intro cp hcp v hv
    simp only [omitsW, List.mem_singleton] at hcp
    subst hcp
    exact (Option.some.inj hv).symm

/-! ### Feature pattern resolution (modelling/data_filtering.py) -/

/-- The body of the `_resolve_feature_patterns` loop for one pattern
(lines 48-64): the exact column-name check runs *before* compilation; a
pattern that fails to compile is skipped; otherwise every not-yet-selected
column the compiled regex fullmatches is appended in table order.  (`seen`
always holds exactly the members of `matched`, so one list suffices.) -/
def resolveStep (matcher : String → String → Bool) (compileOk : String → Bool)
    (columns : List String) (matched : List String) (pattern : String) :
    List String :=
  if pattern ∈ columns ∧ pattern ∉ matched then matched ++ [pattern]
  else
    match compilePattern compileOk pattern with
    | none => matched
    | some r =>
      columns.foldl
        (fun m col => if col ∉ m ∧ matcher r col then m ++ [col] else m) matched

/-- `_resolve_feature_patterns` (lines 35-66). -/
def resolve_feature_patterns (matcher : String → String → Bool)
    (compileOk : String → Bool) (columns patterns : List String) :
    List String :=
  patterns.foldl (resolveStep matcher compileOk columns) []

/-- A compile oracle rejecting exactly the unterminated character set `a[`
(as `re.compile` does). -/
def okBracket : String → Bool := fun s => s != "a["

/-- C10, counterexample: the pattern `a[` contains `[`, is classified as a
raw regex, and fails to compile — yet feature filtering still selects the
column literally named `a[`, because the exact-name check precedes
compilation.  The claim that a non-compiling pattern "matches no columns" is
false. -/
theorem noncompiling_pattern_counterexample :
    compilePattern okBracket "a[" = none ∧
    resolve_feature_patterns (fun _ _ => false) okBracket ["a["] ["a["] =
      ["a["] := by
  constructor
  · rfl
  · rfl

/-- C10 (amended): a pattern that fails to compile is warned about and yields
no compiled regex; row filtering then ignores it entirely (it removes no
rows and raises nothing), and feature filtering ignores it *except* for the
exact column-name check, which runs before compilation: the pattern still
selects a column whose name equals it verbatim, and only such a column. -/
theorem noncompiling_pattern_skipped (matcher : String → String → Bool)
    (compileOk : String → Bool) (toStr : Value → String) (p : String)
    (h : compilePattern compileOk p = none) :
    (∀ columns : List String,
      resolve_feature_patterns matcher compileOk columns [p] =
        if p ∈ columns then [p] else []) ∧
    (∀ v, patternHits matcher compileOk toStr p v = false) ∧
    (∀ (c : String) (data : Table),
      filter_rows matcher compileOk toStr [(c, [p])] data = data) := by
  have hhits : ∀ v, patternHits matcher compileOk toStr p v = false := by
    intro v
    unfold patternHits
    rw [h]
  refine ⟨?_, hhits, ?_⟩
  · intro columns
    unfold resolve_feature_patterns
    rw [List.foldl_cons, List.foldl_nil]
    unfold resolveStep
    by_cases hmem : p ∈ columns
    · rw [if_pos ⟨hmem, List.not_mem_nil p⟩, if_pos hmem]
      rfl
    · rw [if_neg fun hand => hmem hand.1, if_neg hmem, h]
  · intro c data
    unfold filter_rows
    rw [if_neg (by simp)]
    have hmask : ∀ row,
        rowMasked matcher compileOk toStr [(c, [p])] data.cols row = false := by
      intro row
      unfold rowMasked
      rw [List.any_cons, List.any_nil, Bool.or_false]
      cases hlk : lookupCol data.cols row c with
      | none =>
        rw [Bool.and_eq_false_iff]
        exact Or.inr rfl
      | some v =>
        rw [Bool.and_eq_false_iff]
        refine Or.inr ?_
        have : ([p].any fun q => patternHits matcher compileOk toStr q v) =
            false := by
          rw [List.any_cons, List.any_nil, hhits v, Bool.false_or]
        exact this
    have hallkeep : data.rows.filter (fun row =>
        !rowMasked matcher compileOk toStr [(c, [p])] data.cols row) =
        data.rows := by
      rw [List.filter_eq_self]
      intro row _
      rw [hmask row]
      rfl
    rw [hallkeep]

/-- Witness for `noncompiling_pattern_skipped` with a compiler that rejects
everything: the broken pattern `b(` exactly names a column and selects it;
row filtering with it leaves the frame untouched. -/
theorem noncompiling_pattern_skipped_witness :
    resolve_feature_patterns (fun _ _ => false) (fun _ => false)
      ["b(", "z"] ["b("] = ["b("] ∧
    filter_rows (fun _ _ => false) (fun _ => false) toStrW
      [("c", ["b("])] dataW = dataW := by
  have h := noncompiling_pattern_skipped (fun _ _ => false) (fun _ => false)
    toStrW "b(" rfl
  constructor
  · rw [h.1 ["b(", "z"]]
    simp
  · exact h.2.2 "c" dataW
